import Mathlib

/-!
Shallow embedding of the trade-opportunity engine of an EVE Online trading
tool (src/market.py, src/pathfinder.py, src/app.py, src/database.py).

All monetary and volume arithmetic is modelled over `ℚ`; Python's `int(...)`
truncation toward zero is modelled by `pyInt`.  The four order-book matching
strategies, the ranking step of `find_trades`, the distance resolver
`get_jumps_async` (as an explicit state-passing function over its two cache
tiers plus a remote-response oracle), and the scan loop of `scan_group` are
embedded directly from the source.
-/

namespace EveTrading

/-- Python `int(x)` on a rational: truncation toward zero. -/
def pyInt (x : ℚ) : ℤ := if 0 ≤ x then ⌊x⌋ else ⌈x⌉

/-- One side of an order book entry, as built in `process_item`
(market.py lines 193-200): price, remaining volume, solar system id,
station id, station display name, security status. -/
structure Order where
  price : ℚ
  volume : ℚ
  system_id : ℤ
  station_id : ℤ
  station_name : String
  security : ℚ
deriving DecidableEq, Repr, Inhabited

/-- A trade candidate as stored in the `trades` dict of the four
`_find_*_trades` functions of market.py. -/
structure Trade where
  buy_price : ℚ
  sell_price : ℚ
  volume : ℤ
  profit : ℤ
  origin : ℤ
  origin_station : ℤ
  origin_name : String
  origin_security : ℚ
  dest : ℤ
  dest_station : ℤ
  dest_name : String
  dest_security : ℚ
deriving DecidableEq, Repr, Inhabited

/-- Broker fee, hardcoded as `0.03` in all four matchers. -/
def broker_fee : ℚ := 3 / 100

/-- Sales tax, hardcoded as `0.036` in all four matchers. -/
def sales_tax : ℚ := 36 / 1000

/-- Station ids in first-occurrence order: the key set of the
`sells_by_station` / `buys_by_station` dicts (Python dicts preserve
insertion order). -/
def stationKeys (orders : List Order) : List ℤ :=
  orders.foldl (fun acc o => if o.station_id ∈ acc then acc else acc ++ [o.station_id]) []

/-- The `orders` list of one station group. -/
def stationOrders (orders : List Order) (sid : ℤ) : List Order :=
  orders.filter (fun o => o.station_id = sid)

/-- The order supplying a station group's metadata (`system_id`,
`station_name`, `security`): the first order inserted for that station. -/
def stationFirst (orders : List Order) (sid : ℤ) : Order :=
  (orders.find? (fun o => o.station_id = sid)).getD default

/-- Stable insertion of an order into a list sorted by `le`
(equal keys keep their original relative position, as Python's stable sort). -/
def insertOrd (le : Order → Order → Bool) (o : Order) : List Order → List Order
  | [] => [o]
  | x :: xs => if le o x then o :: x :: xs else x :: insertOrd le o xs

/-- Stable sort by `le` (insertion sort; Python's `list.sort` is stable). -/
def sortOrd (le : Order → Order → Bool) (l : List Order) : List Order :=
  l.foldr (insertOrd le) []

/-- `orders.sort(key=lambda x: x['price'])` — sells cheapest first. -/
def sortSellsAsc (l : List Order) : List Order :=
  sortOrd (fun a b => a.price ≤ b.price) l

/-- `orders.sort(key=lambda x: -x['price'])` — buys highest first. -/
def sortBuysDesc (l : List Order) : List Order :=
  sortOrd (fun a b => b.price ≤ a.price) l

/-- Python `min(o['price'] for o in l)` on a nonempty list. -/
def minPrice : List Order → ℚ
  | [] => 0
  | o :: rest => rest.foldl (fun a b => min a b.price) o.price

/-- Python `max(o['price'] for o in l)` on a nonempty list. -/
def maxPrice : List Order → ℚ
  | [] => 0
  | o :: rest => rest.foldl (fun a b => max a b.price) o.price

/-- Sum of the `volume` fields. -/
def volSum (l : List Order) : ℚ := (l.map (fun o => o.volume)).sum

/-- Accumulators of the instant-walk loop (market.py lines 354-388):
matched volume, total buy cost, total sell revenue, plus the number of
loop iterations executed. -/
structure WalkResult where
  vol : ℚ
  cost : ℚ
  rev : ℚ
  steps : ℕ
deriving DecidableEq, Repr

/-- One productive loop iteration: trade `tv` units at sell price `sp` /
buy price `bp` on top of the outcome `r` of the remaining iterations. -/
def tradeStep (sp bp tv : ℚ) (r : WalkResult) : WalkResult :=
  ⟨tv + r.vol, sp * tv + r.cost, bp * tv + r.rev, r.steps + 1⟩

/-- One loop iteration that trades nothing (`trade_vol ≤ 0`) and only
advances an exhausted index. -/
def skipStep (r : WalkResult) : WalkResult :=
  ⟨r.vol, r.cost, r.rev, r.steps + 1⟩

/-- The order-book walk of `_find_instant_trades` (market.py lines 362-388),
on (price, remaining volume) pairs taken from the price-sorted sell and buy
lists of one station pair.  Each iteration trades
`min(sell_remaining, buy_remaining)` when positive, then drops whichever
side is exhausted (`remaining ≤ 0`); it stops when either list is empty or
the next sell price meets/exceeds the next buy price.  The two `False.elim`
branches are the states the Python loop cannot reach: after a positive
trade at least one side's remainder is zero, and a non-positive
`trade_vol = min` forces one side to be already non-positive. -/
def walk : List (ℚ × ℚ) → List (ℚ × ℚ) → WalkResult
  | [], _ => ⟨0, 0, 0, 0⟩
  | _ :: _, [] => ⟨0, 0, 0, 0⟩
  | (sp, sv) :: s, (bp, bv) :: b =>
    if sp ≥ bp then ⟨0, 0, 0, 1⟩
    else if htv : 0 < min sv bv then
      if hs : sv - min sv bv ≤ 0 then
        if bv - min sv bv ≤ 0 then tradeStep sp bp (min sv bv) (walk s b)
        else tradeStep sp bp (min sv bv) (walk s ((bp, bv - min sv bv) :: b))
      else
        if hb : bv - min sv bv ≤ 0 then
          tradeStep sp bp (min sv bv) (walk ((sp, sv - min sv bv) :: s) b)
        else
          False.elim (by
            rcases min_choice sv bv with h | h
            · exact hs (by rw [h]; simp)
            · exact hb (by rw [h]; simp))
    else
      if hsv : sv ≤ 0 then
        if bv ≤ 0 then skipStep (walk s b)
        else skipStep (walk s ((bp, bv) :: b))
      else
        if hbv : bv ≤ 0 then skipStep (walk ((sp, sv) :: s) b)
        else
          False.elim (htv (lt_min_iff.mpr ⟨lt_of_not_le hsv, lt_of_not_le hbv⟩))
termination_by s b => s.length + b.length
decreasing_by all_goals (simp; try omega)

/-! ### The per-station-pair candidate of each strategy

Each `_find_*_trades` function iterates over all (sell station, buy station)
pairs and, per pair, either skips or builds one candidate that is put into
the `trades` dict keyed by the pair.  The bodies below are the loop bodies
of market.py; `none` models `continue`.  Each candidate is returned together
with the exact (un-truncated) `net_profit`, because the dict update compares
the new float `net_profit` against the stored truncated `profit`. -/

/-- The walk of one (sell station, buy station) pair, on the price-sorted
order lists of the two station groups. -/
def instantWalk (sells buys : List Order) (ss bs : ℤ) : WalkResult :=
  walk ((sortSellsAsc (stationOrders sells ss)).map (fun o => (o.price, o.volume)))
       ((sortBuysDesc (stationOrders buys bs)).map (fun o => (o.price, o.volume)))

/-- Loop body of `_find_instant_trades` (market.py lines 344-421) for one
(sell station, buy station) pair. -/
def instantCandidate (sells buys : List Order) (min_profit : ℤ) (ss bs : ℤ) :
    Option (ℚ × Trade) :=
  let w := instantWalk sells buys ss bs
  if w.vol = 0 then none
  else
    let gross_profit := w.rev - w.cost
    let buy_fees := w.cost * broker_fee
    let sell_fees := w.rev * (broker_fee + sales_tax)
    let net_profit := gross_profit - buy_fees - sell_fees
    if net_profit < (min_profit : ℚ) then none
    else
      let sInfo := stationFirst sells ss
      let bInfo := stationFirst buys bs
      some (net_profit,
        { buy_price := w.cost / w.vol
          sell_price := w.rev / w.vol
          volume := pyInt w.vol
          profit := pyInt net_profit
          origin := sInfo.system_id
          origin_station := ss
          origin_name := sInfo.station_name
          origin_security := sInfo.security
          dest := bInfo.system_id
          dest_station := bs
          dest_name := bInfo.station_name
          dest_security := bInfo.security })

/-- Loop body of `_find_buy_order_trades` (market.py lines 425-511) for one
(sell station, buy station) pair.  Note: no same-station check. -/
def buyOrderCandidate (sells buys : List Order) (min_profit : ℤ) (ss bs : ℤ) :
    Option (ℚ × Trade) :=
  let sell_data := stationOrders sells ss
  let buy_data := sortBuysDesc (stationOrders buys bs)
  let min_sell_price := minPrice sell_data
  let total_sell_vol := volSum sell_data
  let buy_order_price := min_sell_price * (95 / 100)
  let best_buy_price := (buy_data.headD default).price
  let total_buy_vol := volSum buy_data
  if buy_order_price ≥ best_buy_price then none
  else
    let volume := min total_sell_vol total_buy_vol
    let gross := (best_buy_price - buy_order_price) * volume
    let fees := buy_order_price * volume * broker_fee
               + best_buy_price * volume * (broker_fee + sales_tax)
    let net_profit := gross - fees
    if net_profit < (min_profit : ℚ) then none
    else
      let sInfo := stationFirst sells ss
      let bInfo := stationFirst buys bs
      some (net_profit,
        { buy_price := buy_order_price
          sell_price := best_buy_price
          volume := pyInt volume
          profit := pyInt net_profit
          origin := sInfo.system_id
          origin_station := ss
          origin_name := sInfo.station_name ++ " [BUY ORDER]"
          origin_security := sInfo.security
          dest := bInfo.system_id
          dest_station := bs
          dest_name := bInfo.station_name
          dest_security := bInfo.security })

/-- Loop body of `_find_sell_order_trades` (market.py lines 513-599) for one
(sell station, buy station) pair.  Note: no same-station check. -/
def sellOrderCandidate (sells buys : List Order) (min_profit : ℤ) (ss bs : ℤ) :
    Option (ℚ × Trade) :=
  let sell_data := sortSellsAsc (stationOrders sells ss)
  let buy_data := stationOrders buys bs
  let best_sell_price := (sell_data.headD default).price
  let total_sell_vol := volSum sell_data
  let max_buy_price := maxPrice buy_data
  let total_buy_vol := volSum buy_data
  let sell_order_price := max_buy_price * (105 / 100)
  if best_sell_price ≥ sell_order_price then none
  else
    let volume := min total_sell_vol total_buy_vol
    let gross := (sell_order_price - best_sell_price) * volume
    let fees := best_sell_price * volume * broker_fee
               + sell_order_price * volume * (broker_fee + sales_tax)
    let net_profit := gross - fees
    if net_profit < (min_profit : ℚ) then none
    else
      let sInfo := stationFirst sells ss
      let bInfo := stationFirst buys bs
      some (net_profit,
        { buy_price := best_sell_price
          sell_price := sell_order_price
          volume := pyInt volume
          profit := pyInt net_profit
          origin := sInfo.system_id
          origin_station := ss
          origin_name := sInfo.station_name
          origin_security := sInfo.security
          dest := bInfo.system_id
          dest_station := bs
          dest_name := bInfo.station_name ++ " [SELL ORDER]"
          dest_security := bInfo.security })

/-- Loop body of `_find_patient_trades` (market.py lines 601-686) for one
(sell station, buy station) pair.  Note: no same-station check. -/
def patientCandidate (sells buys : List Order) (min_profit : ℤ) (ss bs : ℤ) :
    Option (ℚ × Trade) :=
  let sell_data := stationOrders sells ss
  let buy_data := stationOrders buys bs
  let min_sell_price := minPrice sell_data
  let total_sell_vol := volSum sell_data
  let buy_order_price := min_sell_price * (95 / 100)
  let max_buy_price := maxPrice buy_data
  let total_buy_vol := volSum buy_data
  let sell_order_price := max_buy_price * (105 / 100)
  if buy_order_price ≥ sell_order_price then none
  else
    let volume := min total_sell_vol total_buy_vol
    let gross := (sell_order_price - buy_order_price) * volume
    let fees := buy_order_price * volume * broker_fee
               + sell_order_price * volume * (broker_fee + sales_tax)
    let net_profit := gross - fees
    if net_profit < (min_profit : ℚ) then none
    else
      let sInfo := stationFirst sells ss
      let bInfo := stationFirst buys bs
      some (net_profit,
        { buy_price := buy_order_price
          sell_price := sell_order_price
          volume := pyInt volume
          profit := pyInt net_profit
          origin := sInfo.system_id
          origin_station := ss
          origin_name := sInfo.station_name ++ " [BUY ORDER]"
          origin_security := sInfo.security
          dest := bInfo.system_id
          dest_station := bs
          dest_name := bInfo.station_name ++ " [SELL ORDER]"
          dest_security := bInfo.security })

/-! ### The `trades` dict and the double station loop -/

/-- `trades[key]` lookup in the association list modelling the dict. -/
def lookupTrade : List ((ℤ × ℤ) × Trade) → (ℤ × ℤ) → Option Trade
  | [], _ => none
  | (k, t) :: rest, key => if k = key then some t else lookupTrade rest key

/-- `trades[key] = t`: in-place update of an existing key, append otherwise
(Python dicts keep insertion order). -/
def setTrade : List ((ℤ × ℤ) × Trade) → (ℤ × ℤ) → Trade → List ((ℤ × ℤ) × Trade)
  | [], key, t => [(key, t)]
  | (k, t') :: rest, key, t =>
    if k = key then (key, t) :: rest else (k, t') :: setTrade rest key t

/-- `if key not in trades or net_profit > trades[key]['profit']: trades[key] = ...`
— the stored profit is the truncated one, the new profit the exact one. -/
def updTrades (m : List ((ℤ × ℤ) × Trade)) (key : ℤ × ℤ) (net_profit : ℚ)
    (t : Trade) : List ((ℤ × ℤ) × Trade) :=
  match lookupTrade m key with
  | none => setTrade m key t
  | some old => if (old.profit : ℚ) < net_profit then setTrade m key t else m

/-- The double loop over sell stations and buy stations shared by all four
`_find_*_trades` functions: per pair, run the strategy's loop body `cand`
and update the `trades` dict.  Only the instant strategy has the
`if sell_station == buy_station: continue` guard (`skipSame`). -/
def foldPairs (cand : ℤ → ℤ → Option (ℚ × Trade)) (skipSame : Bool)
    (sellKeys buyKeys : List ℤ) : List ((ℤ × ℤ) × Trade) :=
  sellKeys.foldl (fun m ss =>
    buyKeys.foldl (fun m bs =>
      if skipSame ∧ ss = bs then m
      else
        match cand ss bs with
        | none => m
        | some (net_profit, t) => updTrades m (ss, bs) net_profit t) m) []

/-- `_find_instant_trades` (market.py lines 294-423): empty-side guard, then
the double station loop with the same-station skip, then
`list(trades.values())`. -/
def find_instant_trades (sell_orders buy_orders : List Order) (min_profit : ℤ) :
    List Trade :=
  if sell_orders = [] ∨ buy_orders = [] then []
  else
    (foldPairs (instantCandidate sell_orders buy_orders min_profit) true
      (stationKeys sell_orders) (stationKeys buy_orders)).map Prod.snd

/-- `_find_buy_order_trades` (market.py lines 425-511). -/
def find_buy_order_trades (sell_orders buy_orders : List Order) (min_profit : ℤ) :
    List Trade :=
  if sell_orders = [] ∨ buy_orders = [] then []
  else
    (foldPairs (buyOrderCandidate sell_orders buy_orders min_profit) false
      (stationKeys sell_orders) (stationKeys buy_orders)).map Prod.snd

/-- `_find_sell_order_trades` (market.py lines 513-599). -/
def find_sell_order_trades (sell_orders buy_orders : List Order) (min_profit : ℤ) :
    List Trade :=
  if sell_orders = [] ∨ buy_orders = [] then []
  else
    (foldPairs (sellOrderCandidate sell_orders buy_orders min_profit) false
      (stationKeys sell_orders) (stationKeys buy_orders)).map Prod.snd

/-- `_find_patient_trades` (market.py lines 601-686). -/
def find_patient_trades (sell_orders buy_orders : List Order) (min_profit : ℤ) :
    List Trade :=
  if sell_orders = [] ∨ buy_orders = [] then []
  else
    (foldPairs (patientCandidate sell_orders buy_orders min_profit) false
      (stationKeys sell_orders) (stationKeys buy_orders)).map Prod.snd

/-- Strategy dispatch of `find_trades` (market.py lines 230-245): an unknown
`trade_mode` leaves `potential_trades = []`. -/
def matchTrades (trade_mode : String) (sells buys : List Order) (min_profit : ℤ) :
    List Trade :=
  if trade_mode = "instant" then find_instant_trades sells buys min_profit
  else if trade_mode = "buy_orders" then find_buy_order_trades sells buys min_profit
  else if trade_mode = "sell_orders" then find_sell_order_trades sells buys min_profit
  else if trade_mode = "patient" then find_patient_trades sells buys min_profit
  else []

/-! ### The ranking step of `find_trades` (market.py lines 247-292)

After matching, `find_trades` deduplicates (origin, dest) system pairs,
resolves jumps for each pair, and for each candidate whose resolution is
neither missing, `None`, nor an `Exception`, computes the trip math and
emits a row to `insert_trade`.  `routes` models `route_data.get`: `none`
covers a missing key, a `None` result and an `Exception` result (all of
which `continue`); `some j` is an integer jump value, which the code never
inspects further. -/

/-- One row of the `trades` table as built by `find_trades`
(market.py lines 269-291). -/
structure RankedTrade where
  type_id : ℤ
  type_name : String
  buy_price : ℚ
  sell_price : ℚ
  volume : ℤ
  volume_m3 : ℚ
  profit : ℤ
  profit_mil : ℚ
  isk_per_m3 : ℚ
  jumps : ℤ
  trips : ℤ
  total_jumps : ℤ
  profit_per_jump : ℚ
  origin : ℤ
  origin_station : ℤ
  origin_name : String
  origin_security : ℚ
  dest : ℤ
  dest_station : ℤ
  dest_name : String
  dest_security : ℚ
deriving DecidableEq, Repr

/-- The per-candidate ranking loop of `find_trades`
(market.py lines 258-292). -/
def rankTrades (type_id : ℤ) (type_name : String) (item_volume cargo : ℚ)
    (potential_trades : List Trade) (routes : ℤ × ℤ → Option ℤ) :
    List RankedTrade :=
  potential_trades.filterMap (fun t =>
    match routes (t.origin, t.dest) with
    | none => none
    | some jumps =>
      let volume_m3 := (t.volume : ℚ) * item_volume
      let trips := ⌈volume_m3 / cargo⌉
      let total_jumps := jumps * 2 * trips
      let profit_per_jump :=
        if 0 < total_jumps then (t.profit : ℚ) / (total_jumps : ℚ) else (t.profit : ℚ)
      some
        { type_id := type_id
          type_name := type_name
          buy_price := t.buy_price
          sell_price := t.sell_price
          volume := t.volume
          volume_m3 := volume_m3
          profit := t.profit
          profit_mil := (t.profit : ℚ) / 1000000
          isk_per_m3 := if 0 < volume_m3 then (t.profit : ℚ) / volume_m3 else 0
          jumps := jumps
          trips := trips
          total_jumps := total_jumps
          profit_per_jump := profit_per_jump
          origin := t.origin
          origin_station := t.origin_station
          origin_name := t.origin_name
          origin_security := t.origin_security
          dest := t.dest
          dest_station := t.dest_station
          dest_name := t.dest_name
          dest_security := t.dest_security })

/-! ### The distance resolver (pathfinder.py)

`get_jumps_async` is embedded as a pure state-passing function.  The state
holds the two cache tiers: `mem` is the in-process `memory_cache`, mapping
a (origin, destination, route_flag) key to an entry that is either an
integer jump count or Python `None` (the unreachable sentinel), and `db`
is the durable `routes` table, mapping (origin, destination) to an integer
jump count where `-1` encodes unreachable.  The remote ESI response is an
oracle argument. -/

/-- The two cache tiers of pathfinder.py. -/
structure PFState where
  mem : ℤ × ℤ × String → Option (Option ℤ)
  db : ℤ × ℤ → Option ℤ

/-- Outcome of one ESI route request: a 200 response carrying the system
list, a 404 (`no route exists`), any other status, or a raised exception. -/
inductive RemoteResult where
  | ok (route : List ℤ)
  | notFound
  | otherStatus
  | exn
deriving DecidableEq, Repr

/-- Return value of `get_jumps_async`: the Python return value (`some j` an
int, `none` is `None`), the caches after the call, and whether an ESI
request was issued. -/
structure JumpsOutcome where
  result : Option ℤ
  state : PFState
  lookedUp : Bool

/-- `get_jumps_async` (pathfinder.py lines 20-61).  Same system returns 0;
then the memory cache is consulted; then, for the `secure` flag only, the
durable cache (whose raw value — including the `-1` sentinel — is copied
into the memory cache and returned); finally the remote lookup runs: a 200
caches and returns `len(route) - 1`, a 404 caches the unreachable sentinel
(`None` in memory, `-1` durably for `secure`) and returns `None`, and any
other status or exception returns `None` without caching. -/
def get_jumps_async (s : PFState) (origin destination : ℤ) (route_flag : String)
    (remote : RemoteResult) : JumpsOutcome :=
  if origin = destination then ⟨some 0, s, false⟩
  else
    let cache_key := (origin, destination, route_flag)
    match s.mem cache_key with
    | some v => ⟨v, s, false⟩
    | none =>
      match (if route_flag = "secure" then s.db (origin, destination) else none) with
      | some cached =>
        ⟨some cached,
         { s with mem := fun k => if k = cache_key then some (some cached) else s.mem k },
         false⟩
      | none =>
        match remote with
        | .ok route =>
          let jumps : ℤ := (route.length : ℤ) - 1
          ⟨some jumps,
           { mem := fun k => if k = cache_key then some (some jumps) else s.mem k
             db := fun p => if route_flag = "secure" ∧ p = (origin, destination)
                            then some jumps else s.db p },
           true⟩
        | .notFound =>
          ⟨none,
           { mem := fun k => if k = cache_key then some none else s.mem k
             db := fun p => if route_flag = "secure" ∧ p = (origin, destination)
                            then some (-1) else s.db p },
           true⟩
        | .otherStatus => ⟨none, s, true⟩
        | .exn => ⟨none, s, true⟩

/-! ### Scan orchestration (market.py `scan_group`, app.py) -/

/-- The mutable fields of `MarketScanner` that the scan loop touches, plus
the rows emitted to the `trades` table (`insert_trade` only appends;
`clear_trades` empties it at scan start). -/
structure ScannerState where
  status : String
  progress : ℤ
  scanned_items : ℕ
  total_items : ℕ
  trades : List RankedTrade
deriving Repr

/-- `all_types[i:i+5]` batching of the scan loop (market.py lines 136-138). -/
def chunk5 : List ℤ → List (List ℤ)
  | [] => []
  | x :: xs => ((x :: xs).take 5) :: chunk5 ((x :: xs).drop 5)
termination_by l => l.length
decreasing_by simp [List.length_drop]; omega

/-- The batch loop of `scan_group` (market.py lines 135-146): every batch is
processed — `emit` abstracts the per-item work of `process_item`, whose
rows are appended to the `trades` table — and the counters advance.  The
loop body never reads `status`. -/
def scanLoop (emit : ℤ → List RankedTrade) (batches : List (List ℤ))
    (s : ScannerState) : ScannerState :=
  batches.foldl (fun st batch =>
    { st with
      trades := st.trades ++ batch.flatMap emit
      scanned_items := st.scanned_items + batch.length
      progress := pyInt ((((st.scanned_items + batch.length : ℕ) : ℚ)
                          / (st.total_items : ℚ)) * 100) }) s

/-- `scan_group` (market.py lines 99-146): set `scanning`, clear the trades
table, fetch the item list (`fetchOk = false` models a failed market-groups
fetch, which ends in `error`), run the batch loop, then unconditionally set
`complete`. -/
def scan_group (emit : ℤ → List RankedTrade) (fetchOk : Bool) (items : List ℤ)
    (s : ScannerState) : ScannerState :=
  let s0 := { s with status := "scanning", progress := 0, trades := [] }
  if ¬fetchOk then { s0 with status := "error" }
  else
    let s1 := { s0 with total_items := items.length, scanned_items := 0 }
    let s2 := scanLoop emit (chunk5 items) s1
    { s2 with status := "complete", progress := 100 }

/-- `/api/stop` (app.py lines 352-355): sets the status field only. -/
def stop_scan (s : ScannerState) : ScannerState :=
  { s with status := "stopped" }

/-- The scan configuration parsed by `/api/scan` (app.py lines 320-326). -/
structure ScanConfig where
  group_id : ℤ
  min_profit : ℤ
  cargo_capacity : ℤ
  regions : List String
  route_flag : String
  trade_mode : String
deriving DecidableEq, Repr

/-- `/api/scan` (app.py lines 313-334): the only pre-launch check is whether
a scan is already running; no field of the configuration is validated
before the background scan thread starts. -/
def start_scan (status : String) (cfg : ScanConfig) : String :=
  if status = "scanning" then "error"
  else
    let _ := cfg
    "started"

/-! ### Security classification (market.py lines 8-13 and 50-60) -/

/-- The `SECURITY_LEVELS` table: documented (low, high) bounds per tier. -/
def SECURITY_LEVELS : List (String × ℚ × ℚ) :=
  [("highsec", 1/2, 1), ("lowsec", 1/10, 45/100), ("nullsec", -1, 0)]

/-- `is_security_allowed` (market.py lines 50-60). -/
def is_security_allowed (regions : List String) (security : ℚ) : Bool :=
  if security ≥ 1/2 ∧ "highsec" ∈ regions then true
  else if 1/10 ≤ security ∧ security < 1/2 ∧ "lowsec" ∈ regions then true
  else if security < 1/10 ∧ "nullsec" ∈ regions then true
  else false

/-- The tier a security value falls into, following the three guard
conditions of `is_security_allowed`. -/
def securityTier (security : ℚ) : String :=
  if security ≥ 1/2 then "highsec"
  else if 1/10 ≤ security then "lowsec"
  else "nullsec"

/-! ### Concrete inputs used by the closed theorems -/

/-- Sell listing (price 10, qty 100) at station 11 in system 1. -/
def sellA : Order := ⟨10, 100, 1, 11, "A", 9/10⟩

/-- Buy listing (price 15, qty 50) at station 22 in system 2. -/
def buyB : Order := ⟨15, 50, 2, 22, "B", 9/10⟩

/-- The candidate the instant strategy produces from `[sellA]`, `[buyB]`:
volume 50, truncated net profit 185. -/
def tradeAB : Trade := ⟨10, 15, 50, 185, 1, 11, "A", 9/10, 2, 22, "B", 9/10⟩

/-- Sell listing (price 100, qty 10) at station 11 in system 1. -/
def sellS : Order := ⟨100, 10, 1, 11, "S", 9/10⟩

/-- Buy listing (price 200, qty 10) at the same station 11. -/
def buyS : Order := ⟨200, 10, 1, 11, "S", 9/10⟩

/-- The candidate the place-buy strategy produces from `[sellS]`, `[buyS]`:
origin station and destination station are both 11. -/
def tradeSS : Trade := ⟨95, 200, 10, 889, 1, 11, "S [BUY ORDER]", 9/10, 1, 11, "S", 9/10⟩

/-- Cache state with an empty memory cache and a durable cache holding the
unreachable sentinel `-1` for the pair (1, 2) — e.g. left by an earlier
process run, with `preload_routes_from_db` never called. -/
def negDbState : PFState :=
  ⟨fun _ => none, fun p => if p = (1, 2) then some (-1) else none⟩

/-- The `route_data` lookup `find_trades` builds from `batch_get_jumps`
over `negDbState`. -/
def negDbRoutes : ℤ × ℤ → Option ℤ :=
  fun p => (get_jumps_async negDbState p.1 p.2 "secure" RemoteResult.exn).result

/-- Cache state whose memory cache holds the unreachable sentinel (Python
`None`) for the pair (1, 2) under the `secure` profile. -/
def negCacheState : PFState :=
  ⟨fun k => if k = (1, 2, "secure") then some none else none, fun _ => none⟩

/-- Candidate with matched volume 1000 and net profit 2400, for the
trip-math computation. -/
def tripTrade : Trade := ⟨0, 0, 1000, 2400, 1, 11, "A", 9/10, 2, 22, "B", 9/10⟩

/-- The ranked row produced from `tripTrade` with unit volume 2 m3, cargo
capacity 500 m3 and 3 jumps. -/
def rankedTrip : RankedTrade :=
  ⟨0, "Fernite Carbide", 0, 0, 1000, 2000, 2400, 3/1250, 6/5, 3, 4, 24, 100,
   1, 11, "A", 9/10, 2, 22, "B", 9/10⟩

/-- A ranked-trade row used by the scan-loop theorems. -/
def demoRanked : RankedTrade :=
  ⟨0, "", 0, 0, 0, 0, 0, 0, 0, 0, 0, 0, 0, 0, 0, "", 0, 0, 0, "", 0⟩

/-- Per-item work that emits one row. -/
def demoEmit : ℤ → List RankedTrade := fun _ => [demoRanked]

/-- Scanner state mid-scan: one pending item, nothing processed yet. -/
def midScanState : ScannerState := ⟨"scanning", 0, 0, 1, []⟩

/-- The profit/volume invariant, as a predicate on one trade relative to the
full order book: the stored profit meets the threshold and the stored volume
is bounded by the smaller of the two station groups' total volumes. -/
def TradeInv (sells buys : List Order) (mp : ℤ) (t : Trade) : Prop :=
  mp ≤ t.profit ∧
  (t.volume : ℚ) ≤ min (volSum (stationOrders sells t.origin_station))
                       (volSum (stationOrders buys t.dest_station))

/-! ### Helper lemmas -/

theorem le_pyInt {m : ℤ} {x : ℚ} (h : (m : ℚ) ≤ x) : m ≤ pyInt x := by
  unfold pyInt
  split
  · exact Int.le_floor.mpr h
  · exact_mod_cast h.trans (Int.le_ceil x)

theorem pyInt_cast_le {x : ℚ} (h : 0 ≤ x) : (pyInt x : ℚ) ≤ x := by
  unfold pyInt
  rw [if_pos h]
  exact Int.floor_le x

theorem foldl_inv {α β : Type} {P : β → Prop} (f : β → α → β) (l : List α)
    (init : β) (h0 : P init) (hf : ∀ b a, P b → P (f b a)) :
    P (l.foldl f init) := by
  induction l generalizing init with
  | nil => exact h0
  | cons x xs ih => exact ih (f init x) (hf init x h0)

theorem setTrade_forall {P : Trade → Prop} : ∀ {m : List ((ℤ × ℤ) × Trade)}
    {k : ℤ × ℤ} {t : Trade}, (∀ kt ∈ m, P kt.2) → P t →
    ∀ kt ∈ setTrade m k t, P kt.2 := by
  intro m
  induction m with
  | nil =>
    intro k t _ ht kt hkt
    simp only [setTrade, List.mem_singleton] at hkt
    subst hkt; exact ht
  | cons hd tl ih =>
    intro k t hm ht kt hkt
    obtain ⟨k', t'⟩ := hd
    rw [setTrade] at hkt
    split at hkt
    · rcases List.mem_cons.mp hkt with h1 | h1
      · subst h1; exact ht
      · exact hm _ (List.mem_cons_of_mem _ h1)
    · rcases List.mem_cons.mp hkt with h1 | h1
      · exact hm _ (by simp [h1])
      · exact ih (fun kt hkt => hm _ (List.mem_cons_of_mem _ hkt)) ht kt h1

theorem updTrades_forall {P : Trade → Prop} {m : List ((ℤ × ℤ) × Trade)}
    {k : ℤ × ℤ} {net : ℚ} {t : Trade} (hm : ∀ kt ∈ m, P kt.2) (ht : P t) :
    ∀ kt ∈ updTrades m k net t, P kt.2 := by
  unfold updTrades
  split
  · exact setTrade_forall hm ht
  · split
    · exact setTrade_forall hm ht
    · exact hm

theorem foldPairs_forall {P : Trade → Prop} (cand : ℤ → ℤ → Option (ℚ × Trade))
    (skipSame : Bool) (sellKeys buyKeys : List ℤ)
    (h : ∀ ss bs net t, ¬(skipSame = true ∧ ss = bs) →
         cand ss bs = some (net, t) → P t) :
    ∀ kt ∈ foldPairs cand skipSame sellKeys buyKeys, P kt.2 := by
  unfold foldPairs
  refine @foldl_inv _ _ (fun m : List ((ℤ × ℤ) × Trade) => ∀ kt ∈ m, P kt.2) _ sellKeys [] (by simp) ?_
  intro m ss hm
  refine @foldl_inv _ _ (fun m : List ((ℤ × ℤ) × Trade) => ∀ kt ∈ m, P kt.2) _ buyKeys m hm ?_
  intro m' bs hm'
  dsimp only
  split
  · exact hm'
  · rename_i hguard
    split
    · exact hm'
    · rename_i net t hc
      exact updTrades_forall hm' (h ss bs net t hguard hc)

theorem insertOrd_perm (le : Order → Order → Bool) (o : Order) (l : List Order) :
    List.Perm (insertOrd le o l) (o :: l) := by
  induction l with
  | nil => simp [insertOrd]
  | cons x xs ih =>
    rw [insertOrd]
    split
    · exact List.Perm.refl _
    · exact (ih.cons x).trans (List.Perm.swap o x xs)

theorem sortOrd_perm (le : Order → Order → Bool) (l : List Order) :
    List.Perm (sortOrd le l) l := by
  induction l with
  | nil => simp [sortOrd]
  | cons x xs ih => exact (insertOrd_perm le x (sortOrd le xs)).trans (ih.cons x)

theorem volSum_sortOrd (le : Order → Order → Bool) (l : List Order) :
    volSum (sortOrd le l) = volSum l := by
  unfold volSum
  exact ((sortOrd_perm le l).map (fun o => o.volume)).sum_eq

/-- C9: The instant-strategy order-book walk terminates on every pair of
finite order lists: each loop iteration either ends the loop or advances at
least one of the two indices, so the walk performs at most
`len(sells) + len(buys)` iterations. -/
theorem instant_walk_iteration_bound : ∀ s b : List (ℚ × ℚ),
    (walk s b).steps ≤ s.length + b.length := by
  intro s b
  induction s, b using walk.induct with
  | case1 x => simp [walk]
  | case2 head tail => simp [walk]
  | case3 sp sv s bp bv b h1 =>
    rw [walk, if_pos h1]; simp; omega
  | case4 sp sv s bp bv b h1 h2 h3 h4 ih =>
    rw [walk, if_neg h1, dif_pos h2, dif_pos h3, if_pos h4]
    simp only [tradeStep, List.length_cons]; omega
  | case5 sp sv s bp bv b h1 h2 h3 h4 ih =>
    rw [walk, if_neg h1, dif_pos h2, dif_pos h3, if_neg h4]
    simp only [tradeStep, List.length_cons] at ih ⊢; omega
  | case6 sp sv s bp bv b h1 h2 h3 h4 ih =>
    rw [walk, if_neg h1, dif_pos h2, dif_neg h3, dif_pos h4]
    simp only [tradeStep, List.length_cons] at ih ⊢; omega
  | case7 sp sv s bp bv b h1 h2 h3 h4 =>
    exfalso
    rcases min_choice sv bv with h | h
    · exact h3 (by rw [h]; simp)
    · exact h4 (by rw [h]; simp)
  | case8 sp sv s bp bv b h1 h2 h3 h4 ih =>
    rw [walk, if_neg h1, dif_neg h2, dif_pos h3, if_pos h4]
    simp only [skipStep, List.length_cons]; omega
  | case9 sp sv s bp bv b h1 h2 h3 h4 ih =>
    rw [walk, if_neg h1, dif_neg h2, dif_pos h3, if_neg h4]
    simp only [skipStep, List.length_cons] at ih ⊢; omega
  | case10 sp sv s bp bv b h1 h2 h3 h4 ih =>
    rw [walk, if_neg h1, dif_neg h2, dif_neg h3, dif_pos h4]
    simp only [skipStep, List.length_cons] at ih ⊢; omega
  | case11 sp sv s bp bv b h1 h2 h3 h4 =>
    exact absurd (lt_min_iff.mpr ⟨lt_of_not_le h3, lt_of_not_le h4⟩) h2

theorem snd_sum_nonneg {l : List (ℚ × ℚ)} (h : ∀ p ∈ l, 0 ≤ p.2) :
    0 ≤ (l.map Prod.snd).sum := by
  apply List.sum_nonneg
  intro x hx
  obtain ⟨p, hp, rfl⟩ := List.mem_map.mp hx
  exact h p hp

/-- The accumulated volume of the walk is non-negative and bounded by the
total volume of each side, whenever all remaining volumes are non-negative. -/
theorem walk_vol_bounds : ∀ s b : List (ℚ × ℚ),
    (∀ p ∈ s, 0 ≤ p.2) → (∀ p ∈ b, 0 ≤ p.2) →
    0 ≤ (walk s b).vol ∧ (walk s b).vol ≤ (s.map Prod.snd).sum ∧
      (walk s b).vol ≤ (b.map Prod.snd).sum := by
  intro s b
  induction s, b using walk.induct with
  | case1 x =>
    intro _ hb
    rw [walk]
    exact ⟨le_refl _, le_refl _, snd_sum_nonneg hb⟩
  | case2 head tail =>
    intro hs _
    rw [walk]
    exact ⟨le_refl _, snd_sum_nonneg hs, le_refl _⟩
  | case3 sp sv s bp bv b h1 =>
    intro hs hb
    rw [walk, if_pos h1]
    refine ⟨le_refl _, ?_, ?_⟩
    · exact snd_sum_nonneg hs
    · exact snd_sum_nonneg hb
  | case4 sp sv s bp bv b h1 h2 h3 h4 ih =>
    intro hs hb
    have hsv : 0 ≤ sv := hs (sp, sv) (by simp)
    have hbv : 0 ≤ bv := hb (bp, bv) (by simp)
    obtain ⟨ih1, ih2, ih3⟩ :=
      ih (fun p hp => hs p (List.mem_cons_of_mem _ hp))
         (fun p hp => hb p (List.mem_cons_of_mem _ hp))
    rw [walk, if_neg h1, dif_pos h2, dif_pos h3, if_pos h4]
    simp only [tradeStep, List.map_cons, List.sum_cons]
    have hmins : min sv bv ≤ sv := min_le_left sv bv
    have hminb : min sv bv ≤ bv := min_le_right sv bv
    refine ⟨by linarith, by linarith, by linarith⟩
  | case5 sp sv s bp bv b h1 h2 h3 h4 ih =>
    intro hs hb
    have hsv : 0 ≤ sv := hs (sp, sv) (by simp)
    obtain ⟨ih1, ih2, ih3⟩ :=
      ih (fun p hp => hs p (List.mem_cons_of_mem _ hp))
         (by
           intro p hp
           rcases List.mem_cons.mp hp with h | h
           · rw [h]; exact le_of_not_le h4
           · exact hb p (List.mem_cons_of_mem _ h))
    rw [walk, if_neg h1, dif_pos h2, dif_pos h3, if_neg h4]
    simp only [tradeStep, List.map_cons, List.sum_cons] at ih3 ⊢
    have hmins : min sv bv ≤ sv := min_le_left sv bv
    have hminb : min sv bv ≤ bv := min_le_right sv bv
    refine ⟨by linarith, by linarith, by linarith⟩
  | case6 sp sv s bp bv b h1 h2 h3 h4 ih =>
    intro hs hb
    have hbv : 0 ≤ bv := hb (bp, bv) (by simp)
    obtain ⟨ih1, ih2, ih3⟩ :=
      ih (by
           intro p hp
           rcases List.mem_cons.mp hp with h | h
           · rw [h]; exact le_of_not_le h3
           · exact hs p (List.mem_cons_of_mem _ h))
         (fun p hp => hb p (List.mem_cons_of_mem _ hp))
    rw [walk, if_neg h1, dif_pos h2, dif_neg h3, dif_pos h4]
    simp only [tradeStep, List.map_cons, List.sum_cons] at ih2 ⊢
    have hmins : min sv bv ≤ sv := min_le_left sv bv
    have hminb : min sv bv ≤ bv := min_le_right sv bv
    refine ⟨by linarith, by linarith, by linarith⟩
  | case7 sp sv s bp bv b h1 h2 h3 h4 =>
    exfalso
    rcases min_choice sv bv with h | h
    · exact h3 (by rw [h]; simp)
    · exact h4 (by rw [h]; simp)
  | case8 sp sv s bp bv b h1 h2 h3 h4 ih =>
    intro hs hb
    have hsv : 0 ≤ sv := hs (sp, sv) (by simp)
    have hbv : 0 ≤ bv := hb (bp, bv) (by simp)
    obtain ⟨ih1, ih2, ih3⟩ :=
      ih (fun p hp => hs p (List.mem_cons_of_mem _ hp))
         (fun p hp => hb p (List.mem_cons_of_mem _ hp))
    rw [walk, if_neg h1, dif_neg h2, dif_pos h3, if_pos h4]
    simp only [skipStep, List.map_cons, List.sum_cons]
    refine ⟨ih1, by linarith, by linarith⟩
  | case9 sp sv s bp bv b h1 h2 h3 h4 ih =>
    intro hs hb
    have hsv : 0 ≤ sv := hs (sp, sv) (by simp)
    obtain ⟨ih1, ih2, ih3⟩ :=
      ih (fun p hp => hs p (List.mem_cons_of_mem _ hp)) hb
    rw [walk, if_neg h1, dif_neg h2, dif_pos h3, if_neg h4]
    simp only [skipStep, List.map_cons, List.sum_cons] at ih3 ⊢
    refine ⟨ih1, by linarith, by linarith⟩
  | case10 sp sv s bp bv b h1 h2 h3 h4 ih =>
    intro hs hb
    have hbv : 0 ≤ bv := hb (bp, bv) (by simp)
    obtain ⟨ih1, ih2, ih3⟩ :=
      ih hs (fun p hp => hb p (List.mem_cons_of_mem _ hp))
    rw [walk, if_neg h1, dif_neg h2, dif_neg h3, dif_pos h4]
    simp only [skipStep, List.map_cons, List.sum_cons] at ih2 ⊢
    refine ⟨ih1, by linarith, by linarith⟩
  | case11 sp sv s bp bv b h1 h2 h3 h4 =>
    exact absurd (lt_min_iff.mpr ⟨lt_of_not_le h3, lt_of_not_le h4⟩) h2

theorem sortSellsAsc_perm (l : List Order) : List.Perm (sortSellsAsc l) l :=
  sortOrd_perm _ l

theorem sortBuysDesc_perm (l : List Order) : List.Perm (sortBuysDesc l) l :=
  sortOrd_perm _ l

theorem volSum_sortBuysDesc (l : List Order) : volSum (sortBuysDesc l) = volSum l :=
  volSum_sortOrd _ l

theorem volSum_sortSellsAsc (l : List Order) : volSum (sortSellsAsc l) = volSum l :=
  volSum_sortOrd _ l

theorem volSum_nonneg {l : List Order} (h : ∀ o ∈ l, 0 ≤ o.volume) :
    0 ≤ volSum l :=
  List.sum_nonneg (by
    intro x hx
    obtain ⟨o, ho, rfl⟩ := List.mem_map.mp hx
    exact h o ho)

theorem stationOrders_sub {orders : List Order} {sid : ℤ} :
    ∀ o ∈ stationOrders orders sid, o ∈ orders :=
  fun _ ho => List.mem_of_mem_filter ho

/-- The per-pair instant walk consumes no more volume than either station
group offers. -/
theorem instantWalk_vol_le (sells buys : List Order) (ss bs : ℤ)
    (hs : ∀ o ∈ sells, 0 ≤ o.volume) (hb : ∀ o ∈ buys, 0 ≤ o.volume) :
    0 ≤ (instantWalk sells buys ss bs).vol ∧
    (instantWalk sells buys ss bs).vol ≤ volSum (stationOrders sells ss) ∧
    (instantWalk sells buys ss bs).vol ≤ volSum (stationOrders buys bs) := by
  have h1 : ∀ p ∈ (sortSellsAsc (stationOrders sells ss)).map
      (fun o => (o.price, o.volume)), 0 ≤ p.2 := by
    intro p hp
    obtain ⟨o, ho, rfl⟩ := List.mem_map.mp hp
    exact hs o (stationOrders_sub o ((sortSellsAsc_perm _).mem_iff.mp ho))
  have h2 : ∀ p ∈ (sortBuysDesc (stationOrders buys bs)).map
      (fun o => (o.price, o.volume)), 0 ≤ p.2 := by
    intro p hp
    obtain ⟨o, ho, rfl⟩ := List.mem_map.mp hp
    exact hb o (stationOrders_sub o ((sortBuysDesc_perm _).mem_iff.mp ho))
  obtain ⟨ha, hbnd1, hbnd2⟩ := walk_vol_bounds _ _ h1 h2
  have e1 : ((sortSellsAsc (stationOrders sells ss)).map
      (fun o => (o.price, o.volume))).map Prod.snd
      = (sortSellsAsc (stationOrders sells ss)).map (fun o => o.volume) := by
    rw [List.map_map]; rfl
  have e2 : ((sortBuysDesc (stationOrders buys bs)).map
      (fun o => (o.price, o.volume))).map Prod.snd
      = (sortBuysDesc (stationOrders buys bs)).map (fun o => o.volume) := by
    rw [List.map_map]; rfl
  rw [instantWalk]
  refine ⟨ha, ?_, ?_⟩
  · calc (walk _ _).vol ≤ _ := hbnd1
      _ = volSum (stationOrders sells ss) := by
        rw [e1]
        exact volSum_sortSellsAsc (stationOrders sells ss)
  · calc (walk _ _).vol ≤ _ := hbnd2
      _ = volSum (stationOrders buys bs) := by
        rw [e2]
        exact volSum_sortBuysDesc (stationOrders buys bs)

/-- What a produced instant candidate satisfies, by the guards of the loop
body: its stations are the loop's pair, its exact net profit passed the
threshold, and its stored volume/profit are the truncated walk volume and
net profit. -/
theorem instantCandidate_some {sells buys : List Order} {mp ss bs : ℤ}
    {net : ℚ} {t : Trade}
    (h : instantCandidate sells buys mp ss bs = some (net, t)) :
    t.origin_station = ss ∧ t.dest_station = bs ∧ (mp : ℚ) ≤ net ∧
    t.profit = pyInt net ∧ t.volume = pyInt (instantWalk sells buys ss bs).vol := by
  simp only [instantCandidate] at h
  split at h
  · exact absurd h (by simp)
  · split at h
    · exact absurd h (by simp)
    · rename_i hvol hlt
      simp only [Option.some.injEq, Prod.mk.injEq] at h
      obtain ⟨hnet, ht⟩ := h
      subst hnet
      subst ht
      exact ⟨rfl, rfl, not_lt.mp hlt, rfl, rfl⟩

/-- What a produced place-buy candidate satisfies. -/
theorem buyOrderCandidate_some {sells buys : List Order} {mp ss bs : ℤ}
    {net : ℚ} {t : Trade}
    (h : buyOrderCandidate sells buys mp ss bs = some (net, t)) :
    t.origin_station = ss ∧ t.dest_station = bs ∧ (mp : ℚ) ≤ net ∧
    t.profit = pyInt net ∧
    t.volume = pyInt (min (volSum (stationOrders sells ss))
                          (volSum (stationOrders buys bs))) := by
  simp only [buyOrderCandidate] at h
  split at h
  · exact absurd h (by simp)
  · split at h
    · exact absurd h (by simp)
    · rename_i hcmp hlt
      simp only [Option.some.injEq, Prod.mk.injEq] at h
      obtain ⟨hnet, ht⟩ := h
      subst hnet
      subst ht
      refine ⟨rfl, rfl, not_lt.mp hlt, rfl, ?_⟩
      simp only [volSum_sortBuysDesc]

/-- What a produced place-sell candidate satisfies. -/
theorem sellOrderCandidate_some {sells buys : List Order} {mp ss bs : ℤ}
    {net : ℚ} {t : Trade}
    (h : sellOrderCandidate sells buys mp ss bs = some (net, t)) :
    t.origin_station = ss ∧ t.dest_station = bs ∧ (mp : ℚ) ≤ net ∧
    t.profit = pyInt net ∧
    t.volume = pyInt (min (volSum (stationOrders sells ss))
                          (volSum (stationOrders buys bs))) := by
  simp only [sellOrderCandidate] at h
  split at h
  · exact absurd h (by simp)
  · split at h
    · exact absurd h (by simp)
    · rename_i hcmp hlt
      simp only [Option.some.injEq, Prod.mk.injEq] at h
      obtain ⟨hnet, ht⟩ := h
      subst hnet
      subst ht
      refine ⟨rfl, rfl, not_lt.mp hlt, rfl, ?_⟩
      simp only [volSum_sortSellsAsc]

/-- What a produced patient candidate satisfies. -/
theorem patientCandidate_some {sells buys : List Order} {mp ss bs : ℤ}
    {net : ℚ} {t : Trade}
    (h : patientCandidate sells buys mp ss bs = some (net, t)) :
    t.origin_station = ss ∧ t.dest_station = bs ∧ (mp : ℚ) ≤ net ∧
    t.profit = pyInt net ∧
    t.volume = pyInt (min (volSum (stationOrders sells ss))
                          (volSum (stationOrders buys bs))) := by
  simp only [patientCandidate] at h
  split at h
  · exact absurd h (by simp)
  · split at h
    · exact absurd h (by simp)
    · rename_i hcmp hlt
      simp only [Option.some.injEq, Prod.mk.injEq] at h
      obtain ⟨hnet, ht⟩ := h
      subst hnet
      subst ht
      exact ⟨rfl, rfl, not_lt.mp hlt, rfl, rfl⟩

theorem inv_of_parts {sells buys : List Order} {mp : ℤ} {net : ℚ} {t : Trade}
    {ss bs : ℤ} (hos : t.origin_station = ss) (hds : t.dest_station = bs)
    (hnet : (mp : ℚ) ≤ net) (hp : t.profit = pyInt net)
    (hv : ∃ v : ℚ, t.volume = pyInt v ∧ 0 ≤ v ∧
          v ≤ volSum (stationOrders sells ss) ∧
          v ≤ volSum (stationOrders buys bs)) :
    TradeInv sells buys mp t := by
  obtain ⟨v, hveq, hv0, hv1, hv2⟩ := hv
  constructor
  · rw [hp]; exact le_pyInt hnet
  · rw [hos, hds, hveq]
    exact le_min ((pyInt_cast_le hv0).trans hv1) ((pyInt_cast_le hv0).trans hv2)

theorem find_instant_trades_inv {sells buys : List Order} {mp : ℤ}
    (hs : ∀ o ∈ sells, 0 ≤ o.volume) (hb : ∀ o ∈ buys, 0 ≤ o.volume) :
    ∀ t ∈ find_instant_trades sells buys mp, TradeInv sells buys mp t := by
  intro t ht
  unfold find_instant_trades at ht
  split at ht
  · simp at ht
  · obtain ⟨kt, hkt, rfl⟩ := List.mem_map.mp ht
    refine foldPairs_forall _ _ _ _ ?_ kt hkt
    intro ss bs net t' _ hc
    obtain ⟨h1, h2, h3, h4, h5⟩ := instantCandidate_some hc
    obtain ⟨w0, w1, w2⟩ := instantWalk_vol_le sells buys ss bs hs hb
    exact inv_of_parts h1 h2 h3 h4
      ⟨(instantWalk sells buys ss bs).vol, h5, w0, w1, w2⟩

theorem min_volSum_parts {sells buys : List Order} {ss bs : ℤ}
    (hs : ∀ o ∈ sells, 0 ≤ o.volume) (hb : ∀ o ∈ buys, 0 ≤ o.volume) :
    0 ≤ min (volSum (stationOrders sells ss)) (volSum (stationOrders buys bs)) ∧
    min (volSum (stationOrders sells ss)) (volSum (stationOrders buys bs))
      ≤ volSum (stationOrders sells ss) ∧
    min (volSum (stationOrders sells ss)) (volSum (stationOrders buys bs))
      ≤ volSum (stationOrders buys bs) :=
  ⟨le_min (volSum_nonneg (fun o ho => hs o (stationOrders_sub o ho)))
          (volSum_nonneg (fun o ho => hb o (stationOrders_sub o ho))),
   min_le_left _ _, min_le_right _ _⟩

theorem find_buy_order_trades_inv {sells buys : List Order} {mp : ℤ}
    (hs : ∀ o ∈ sells, 0 ≤ o.volume) (hb : ∀ o ∈ buys, 0 ≤ o.volume) :
    ∀ t ∈ find_buy_order_trades sells buys mp, TradeInv sells buys mp t := by
  intro t ht
  unfold find_buy_order_trades at ht
  split at ht
  · simp at ht
  · obtain ⟨kt, hkt, rfl⟩ := List.mem_map.mp ht
    refine foldPairs_forall _ _ _ _ ?_ kt hkt
    intro ss bs net t' _ hc
    obtain ⟨h1, h2, h3, h4, h5⟩ := buyOrderCandidate_some hc
    obtain ⟨w0, w1, w2⟩ := min_volSum_parts hs hb
    exact inv_of_parts h1 h2 h3 h4 ⟨_, h5, w0, w1, w2⟩

theorem find_sell_order_trades_inv {sells buys : List Order} {mp : ℤ}
    (hs : ∀ o ∈ sells, 0 ≤ o.volume) (hb : ∀ o ∈ buys, 0 ≤ o.volume) :
    ∀ t ∈ find_sell_order_trades sells buys mp, TradeInv sells buys mp t := by
  intro t ht
  unfold find_sell_order_trades at ht
  split at ht
  · simp at ht
  · obtain ⟨kt, hkt, rfl⟩ := List.mem_map.mp ht
    refine foldPairs_forall _ _ _ _ ?_ kt hkt
    intro ss bs net t' _ hc
    obtain ⟨h1, h2, h3, h4, h5⟩ := sellOrderCandidate_some hc
    obtain ⟨w0, w1, w2⟩ := min_volSum_parts hs hb
    exact inv_of_parts h1 h2 h3 h4 ⟨_, h5, w0, w1, w2⟩

theorem find_patient_trades_inv {sells buys : List Order} {mp : ℤ}
    (hs : ∀ o ∈ sells, 0 ≤ o.volume) (hb : ∀ o ∈ buys, 0 ≤ o.volume) :
    ∀ t ∈ find_patient_trades sells buys mp, TradeInv sells buys mp t := by
  intro t ht
  unfold find_patient_trades at ht
  split at ht
  · simp at ht
  · obtain ⟨kt, hkt, rfl⟩ := List.mem_map.mp ht
    refine foldPairs_forall _ _ _ _ ?_ kt hkt
    intro ss bs net t' _ hc
    obtain ⟨h1, h2, h3, h4, h5⟩ := patientCandidate_some hc
    obtain ⟨w0, w1, w2⟩ := min_volSum_parts hs hb
    exact inv_of_parts h1 h2 h3 h4 ⟨_, h5, w0, w1, w2⟩

theorem instantWalk_example : instantWalk [sellA] [buyB] 11 22 = ⟨50, 500, 750, 1⟩ := by
  norm_num [instantWalk, stationOrders, sortSellsAsc, sortBuysDesc, sortOrd, insertOrd,
    sellA, buyB, walk, tradeStep, skipStep]

theorem instantCandidate_example :
    instantCandidate [sellA] [buyB] 100 11 22 = some (371/2, tradeAB) := by
  simp only [instantCandidate, instantWalk_example]
  norm_num [broker_fee, sales_tax, pyInt, stationFirst, sellA, buyB, tradeAB]

theorem instantCandidate_example200 :
    instantCandidate [sellA] [buyB] 200 11 22 = none := by
  simp only [instantCandidate, instantWalk_example]
  norm_num [broker_fee, sales_tax]

theorem instant_example_eval : find_instant_trades [sellA] [buyB] 100 = [tradeAB] := by
  rw [find_instant_trades, if_neg (by decide)]
  rw [(by decide : stationKeys [sellA] = [11])]
  rw [(by decide : stationKeys [buyB] = [22])]
  simp only [foldPairs, List.foldl_cons, List.foldl_nil]
  rw [if_neg (by decide)]
  rw [instantCandidate_example]
  simp [updTrades, lookupTrade, setTrade]

theorem instant_example_eval200 : find_instant_trades [sellA] [buyB] 200 = [] := by
  rw [find_instant_trades, if_neg (by decide)]
  rw [(by decide : stationKeys [sellA] = [11])]
  rw [(by decide : stationKeys [buyB] = [22])]
  simp only [foldPairs, List.foldl_cons, List.foldl_nil]
  rw [if_neg (by decide)]
  rw [instantCandidate_example200]
  simp

/-- C5: On sell listings [(price 10, qty 100, loc A)] and buy listings
[(price 15, qty 50, loc B)] with broker fee 3% and sales tax 3.6%, the
instant strategy matches volume 50 with gross profit 250 and exact net
profit 250 - 10*50*0.03 - 15*50*0.066 = 185.5; exactly one candidate is
produced and kept at minimum profit 100, and none at minimum profit 200. -/
theorem instant_mode_walk_example :
    (instantWalk [sellA] [buyB] 11 22).vol = 50 ∧
    (instantWalk [sellA] [buyB] 11 22).rev
      - (instantWalk [sellA] [buyB] 11 22).cost = 250 ∧
    (371/2 : ℚ) = 250 - 10 * 50 * (3/100) - 15 * 50 * (66/1000) ∧
    instantCandidate [sellA] [buyB] 100 11 22 = some (371/2, tradeAB) ∧
    tradeAB.volume = 50 ∧
    find_instant_trades [sellA] [buyB] 100 = [tradeAB] ∧
    find_instant_trades [sellA] [buyB] 200 = [] := by
  refine ⟨?_, ?_, by norm_num, instantCandidate_example, rfl,
    instant_example_eval, instant_example_eval200⟩
  · rw [instantWalk_example]
  · rw [instantWalk_example]; norm_num

theorem buyOrderCandidate_example :
    buyOrderCandidate [sellS] [buyS] 0 11 11 = some (1779/2, tradeSS) := by
  simp only [buyOrderCandidate]
  norm_num [stationOrders, sortBuysDesc, sortOrd, insertOrd, minPrice, volSum,
    stationFirst, sellS, buyS, tradeSS, broker_fee, sales_tax, pyInt]
  rfl

theorem buyOrder_example_eval :
    find_buy_order_trades [sellS] [buyS] 0 = [tradeSS] := by
  rw [find_buy_order_trades, if_neg (by decide)]
  rw [(by decide : stationKeys [sellS] = [11])]
  rw [(by decide : stationKeys [buyS] = [11])]
  simp only [foldPairs, List.foldl_cons, List.foldl_nil]
  rw [if_neg (by decide)]
  rw [buyOrderCandidate_example]
  simp [updTrades, lookupTrade, setTrade]

/-- C1 (counterexample): in the place-buy strategy a candidate whose origin
station equals its destination station is emitted — the same-location check
exists only in the instant strategy. -/
theorem same_station_pair_not_discarded :
    (matchTrades "buy_orders" [sellS] [buyS] 0).map
      (fun t => (t.origin_station, t.dest_station)) = [(11, 11)] := by
  have hmode : matchTrades "buy_orders" [sellS] [buyS] 0
      = find_buy_order_trades [sellS] [buyS] 0 := by
    simp [matchTrades]
  rw [hmode, buyOrder_example_eval]
  decide

/-- C1 (amended): only the instant strategy discards same-location pairs —
no candidate it emits has its origin station equal to its destination
station; the place-buy, place-sell and patient strategies lack the check. -/
theorem instant_discards_same_location (sells buys : List Order) (mp : ℤ) :
    ∀ t ∈ find_instant_trades sells buys mp,
      t.origin_station ≠ t.dest_station := by
  intro t ht
  unfold find_instant_trades at ht
  split at ht
  · simp at ht
  · obtain ⟨kt, hkt, rfl⟩ := List.mem_map.mp ht
    refine @foldPairs_forall (fun t => t.origin_station ≠ t.dest_station)
      _ _ _ _ ?_ kt hkt
    intro ss bs net t2 hguard hc
    obtain ⟨h1, h2, _, _, _⟩ := instantCandidate_some hc
    rw [h1, h2]
    intro hss
    exact hguard ⟨rfl, hss⟩

theorem instant_discards_same_location_witness :
    tradeAB.origin_station ≠ tradeAB.dest_station :=
  instant_discards_same_location [sellA] [buyB] 100 tradeAB
    (by rw [instant_example_eval]; exact List.mem_singleton_self _)

/-- C3: for every strategy and every order book with non-negative remaining
volumes, every emitted candidate has net profit at least the configured
minimum profit threshold, and matched volume at most the minimum of the
total sell-side volume at its origin station and the total buy-side volume
at its destination station. -/
theorem matcher_profit_volume_invariant (mode : String) (sells buys : List Order)
    (mp : ℤ) (hs : ∀ o ∈ sells, 0 ≤ o.volume) (hb : ∀ o ∈ buys, 0 ≤ o.volume) :
    ∀ t ∈ matchTrades mode sells buys mp,
      mp ≤ t.profit ∧
      (t.volume : ℚ) ≤ min (volSum (stationOrders sells t.origin_station))
                           (volSum (stationOrders buys t.dest_station)) := by
  intro t ht
  unfold matchTrades at ht
  split at ht
  · exact find_instant_trades_inv hs hb t ht
  · split at ht
    · exact find_buy_order_trades_inv hs hb t ht
    · split at ht
      · exact find_sell_order_trades_inv hs hb t ht
      · split at ht
        · exact find_patient_trades_inv hs hb t ht
        · simp at ht

theorem matcher_profit_volume_invariant_witness :
    (100 : ℤ) ≤ tradeAB.profit ∧
    (tradeAB.volume : ℚ) ≤ min (volSum (stationOrders [sellA] tradeAB.origin_station))
                               (volSum (stationOrders [buyB] tradeAB.dest_station)) :=
  matcher_profit_volume_invariant "instant" [sellA] [buyB] 100
    (by decide) (by decide) tradeAB
    (by simp only [matchTrades, if_pos]; rw [instant_example_eval]
        exact List.mem_singleton_self _)

/-- Every emitted RankedTrade row determines its fields from its candidate
and the jump count exactly as the loop body of `find_trades` computes them. -/
theorem rankTrades_mem {tid : ℤ} {tn : String} {iv cargo : ℚ} {trades : List Trade}
    {routes : ℤ × ℤ → Option ℤ} {r : RankedTrade}
    (h : r ∈ rankTrades tid tn iv cargo trades routes) :
    ∃ t ∈ trades, routes (t.origin, t.dest) = some r.jumps ∧
      r.volume_m3 = (t.volume : ℚ) * iv ∧
      r.trips = ⌈r.volume_m3 / cargo⌉ ∧
      r.total_jumps = r.jumps * 2 * r.trips ∧
      r.profit = t.profit ∧
      r.profit_per_jump
        = (if 0 < r.total_jumps then (r.profit : ℚ) / (r.total_jumps : ℚ)
           else (r.profit : ℚ)) := by
  unfold rankTrades at h
  obtain ⟨t, ht, heq⟩ := List.mem_filterMap.mp h
  refine ⟨t, ht, ?_⟩
  cases hr : routes (t.origin, t.dest) with
  | none => rw [hr] at heq; exact absurd heq (by simp)
  | some j =>
    rw [hr] at heq
    simp only [Option.some.injEq] at heq
    subst heq
    exact ⟨rfl, rfl, rfl, rfl, rfl, rfl⟩

theorem rank_example_eval :
    rankTrades 0 "Fernite Carbide" 2 500 [tripTrade] (fun _ => some 3)
      = [rankedTrip] := by
  unfold rankTrades
  norm_num [tripTrade, rankedTrip, List.filterMap]

/-- C4: every RankedTrade emitted by the ranking step of `find_trades`
satisfies: its cargo volume is matched volume times unit volume, its trip
count is the least integer number of full cargo loads covering that volume
(the ceiling), its total travel cost is jumps * 2 * trips, and its profit
per jump times a positive total travel cost recovers the net profit while a
zero travel cost leaves the raw net profit; concretely, volume 1000 at
2 m3/unit with cargo 500 m3 and 3 jumps gives trips 4, travel cost 24 and
profit_per_jump = net_profit / 24. -/
theorem ranker_trip_math :
    (∀ (tid : ℤ) (tn : String) (iv cargo : ℚ) (trades : List Trade)
       (routes : ℤ × ℤ → Option ℤ) (r : RankedTrade), 0 < cargo →
       r ∈ rankTrades tid tn iv cargo trades routes →
       (∃ t ∈ trades, r.volume_m3 = (t.volume : ℚ) * iv ∧ r.profit = t.profit ∧
          routes (t.origin, t.dest) = some r.jumps) ∧
       r.volume_m3 ≤ (r.trips : ℚ) * cargo ∧
       (∀ n : ℤ, r.volume_m3 ≤ (n : ℚ) * cargo → r.trips ≤ n) ∧
       r.total_jumps = r.jumps * 2 * r.trips ∧
       (0 < r.total_jumps →
         r.profit_per_jump * (r.total_jumps : ℚ) = (r.profit : ℚ)) ∧
       (r.total_jumps = 0 → r.profit_per_jump = (r.profit : ℚ))) ∧
    (rankTrades 0 "Fernite Carbide" 2 500 [tripTrade] (fun _ => some 3)).map
      (fun r => (r.trips, r.total_jumps, r.profit_per_jump))
      = [(4, 24, (2400 : ℚ) / 24)] := by
  constructor
  · intro tid tn iv cargo trades routes r hc hr
    obtain ⟨t, ht, hroute, hvm, htrips, htot, hprofit, hppj⟩ := rankTrades_mem hr
    refine ⟨⟨t, ht, hvm, hprofit, hroute⟩, ?_, ?_, htot, ?_, ?_⟩
    · rw [htrips]
      exact (div_le_iff₀ hc).mp (Int.le_ceil _)
    · intro n hn
      rw [htrips]
      exact Int.ceil_le.mpr ((div_le_iff₀ hc).mpr hn)
    · intro hpos
      rw [hppj, if_pos hpos]
      exact div_mul_cancel₀ _ (Int.cast_ne_zero.mpr (ne_of_gt hpos))
    · intro hzero
      rw [hppj, hzero]
      simp
  · rw [rank_example_eval]
    norm_num [rankedTrip]

theorem ranker_trip_math_witness :
    (∃ t ∈ [tripTrade], rankedTrip.volume_m3 = (t.volume : ℚ) * 2 ∧
       rankedTrip.profit = t.profit ∧
       (fun _ : ℤ × ℤ => some (3 : ℤ)) (t.origin, t.dest) = some rankedTrip.jumps) ∧
    rankedTrip.volume_m3 ≤ (rankedTrip.trips : ℚ) * 500 ∧
    (∀ n : ℤ, rankedTrip.volume_m3 ≤ (n : ℚ) * 500 → rankedTrip.trips ≤ n) ∧
    rankedTrip.total_jumps = rankedTrip.jumps * 2 * rankedTrip.trips ∧
    (0 < rankedTrip.total_jumps →
      rankedTrip.profit_per_jump * (rankedTrip.total_jumps : ℚ)
        = (rankedTrip.profit : ℚ)) ∧
    (rankedTrip.total_jumps = 0 →
      rankedTrip.profit_per_jump = (rankedTrip.profit : ℚ)) :=
  ranker_trip_math.1 0 "Fernite Carbide" 2 500 [tripTrade] (fun _ => some 3)
    rankedTrip (by norm_num)
    (by rw [rank_example_eval]; exact List.mem_singleton_self _)

/-- C2 (divergence at the failing input): with an empty memory cache and the
durable cache holding the unreachable sentinel -1 for the pair (1, 2),
`get_jumps_async` returns -1 as an ordinary jump count (with no remote
lookup), so `find_trades` emits a RankedTrade with jumps = -1 instead of
excluding the candidate — unlike the memory-cached unreachable sentinel,
which is correctly excluded (last conjunct). -/
theorem db_unreachable_sentinel_ranked :
    (get_jumps_async negDbState 1 2 "secure" RemoteResult.exn).result = some (-1) ∧
    (get_jumps_async negDbState 1 2 "secure" RemoteResult.exn).lookedUp = false ∧
    (rankTrades 34 "Tritanium" 1 500 [tradeAB] negDbRoutes).map (fun r => r.jumps)
      = [-1] ∧
    rankTrades 34 "Tritanium" 1 500 [tradeAB]
      (fun p => (get_jumps_async negCacheState p.1 p.2 "secure" RemoteResult.exn).result)
      = [] := by
  refine ⟨rfl, rfl, ?_, ?_⟩
  · norm_num [rankTrades, negDbRoutes, negDbState, get_jumps_async, tradeAB,
      List.filterMap]
  · simp [rankTrades, negCacheState, get_jumps_async, tradeAB, List.filterMap]

/-- C6: once a pair is cached as unreachable in the memory cache, resolving
it again under the same profile issues no remote lookup, returns the
unreachable result and leaves the caches unchanged; no other resolver call
evicts the entry; and a fresh 404 resolution (no prior cache entry for the
pair) is what establishes the cached unreachable sentinel. -/
theorem negative_result_stability (s : PFState) (o d : ℤ) (flag : String)
    (rem : RemoteResult) (hne : o ≠ d) (hmem : s.mem (o, d, flag) = some none) :
    (get_jumps_async s o d flag rem).result = none ∧
    (get_jumps_async s o d flag rem).lookedUp = false ∧
    (get_jumps_async s o d flag rem).state = s ∧
    (∀ (o2 d2 : ℤ) (flag2 : String) (rem2 : RemoteResult),
      (get_jumps_async s o2 d2 flag2 rem2).state.mem (o, d, flag) = some none) ∧
    (∀ s0 : PFState, s0.mem (o, d, flag) = none →
      (flag = "secure" → s0.db (o, d) = none) →
      (get_jumps_async s0 o d flag RemoteResult.notFound).result = none ∧
      (get_jumps_async s0 o d flag RemoteResult.notFound).state.mem (o, d, flag)
        = some none) := by
  have hmain : get_jumps_async s o d flag rem = ⟨none, s, false⟩ := by
    unfold get_jumps_async
    rw [if_neg hne]
    simp only [hmem]
  refine ⟨by rw [hmain], by rw [hmain], by rw [hmain], ?_, ?_⟩
  · intro o2 d2 flag2 rem2
    unfold get_jumps_async
    by_cases h22 : o2 = d2
    · rw [if_pos h22]; exact hmem
    · rw [if_neg h22]
      cases hm2 : s.mem (o2, d2, flag2) with
      | some v => simp only [hm2]; exact hmem
      | none =>
        simp only [hm2]
        cases hdb : (if flag2 = "secure" then s.db (o2, d2) else none) with
        | some cached =>
          simp only [hdb]
          by_cases hk : (o, d, flag) = (o2, d2, flag2)
          · exfalso; rw [← hk] at hm2; rw [hmem] at hm2; exact Option.noConfusion hm2
          · rw [if_neg hk]; exact hmem
        | none =>
          simp only [hdb]
          cases rem2 with
          | ok route =>
            dsimp only
            by_cases hk : (o, d, flag) = (o2, d2, flag2)
            · exfalso; rw [← hk] at hm2; rw [hmem] at hm2; exact Option.noConfusion hm2
            · rw [if_neg hk]; exact hmem
          | notFound =>
            dsimp only
            by_cases hk : (o, d, flag) = (o2, d2, flag2)
            · rw [if_pos hk]
            · rw [if_neg hk]; exact hmem
          | otherStatus => dsimp only; exact hmem
          | exn => dsimp only; exact hmem
  · intro s0 h0 hdb0
    unfold get_jumps_async
    rw [if_neg hne]
    simp only [h0]
    have hdbeq : (if flag = "secure" then s0.db (o, d) else none) = none := by
      by_cases hf : flag = "secure"
      · rw [if_pos hf]; exact hdb0 hf
      · rw [if_neg hf]
    simp only [hdbeq]
    simp

theorem negative_result_stability_witness :
    (get_jumps_async negCacheState 1 2 "secure" RemoteResult.exn).result = none ∧
    (get_jumps_async negCacheState 1 2 "secure" RemoteResult.exn).lookedUp = false :=
  ⟨(negative_result_stability negCacheState 1 2 "secure" RemoteResult.exn
      (by decide) (by rfl)).1,
   (negative_result_stability negCacheState 1 2 "secure" RemoteResult.exn
      (by decide) (by rfl)).2.1⟩

/-- C7 (counterexample): a scan request with an unknown trade strategy and a
non-positive cargo capacity is accepted and a scan starts; the unknown
strategy then yields zero candidates for an order book on which a valid
strategy produces a candidate — the scan silently produces nothing instead
of failing fast. -/
theorem invalid_config_scan_starts :
    start_scan "idle" ⟨533, 100, 0, ["highsec"], "secure", "turbo"⟩ = "started" ∧
    matchTrades "turbo" [sellA] [buyB] 100 = [] ∧
    matchTrades "instant" [sellA] [buyB] 100 ≠ [] := by
  refine ⟨rfl, rfl, ?_⟩
  have h : matchTrades "instant" [sellA] [buyB] 100
      = find_instant_trades [sellA] [buyB] 100 := by simp [matchTrades]
  rw [h, instant_example_eval]
  simp

/-- C7 (amended): the system performs no configuration validation before a
scan starts: any request is accepted whenever no scan is running, and an
unknown trade strategy makes the matcher silently return no candidates for
every item (a zero cargo capacity additionally yields a division by zero in
the trip computation, mid-scan). -/
theorem no_config_validation :
    (∀ (st : String) (cfg : ScanConfig), st ≠ "scanning" →
      start_scan st cfg = "started") ∧
    (∀ (mode : String) (sells buys : List Order) (mp : ℤ),
      mode ≠ "instant" → mode ≠ "buy_orders" → mode ≠ "sell_orders" →
      mode ≠ "patient" → matchTrades mode sells buys mp = []) := by
  constructor
  · intro st cfg h
    unfold start_scan
    rw [if_neg h]
  · intro mode sells buys mp h1 h2 h3 h4
    unfold matchTrades
    rw [if_neg h1, if_neg h2, if_neg h3, if_neg h4]

theorem no_config_validation_witness :
    start_scan "idle" ⟨533, 100, 0, ["highsec"], "secure", "turbo"⟩ = "started" ∧
    matchTrades "turbo" [sellA] [buyB] 100 = [] :=
  ⟨no_config_validation.1 "idle" ⟨533, 100, 0, ["highsec"], "secure", "turbo"⟩
      (by decide),
   no_config_validation.2 "turbo" [sellA] [buyB] 100
      (by decide) (by decide) (by decide) (by decide)⟩

/-- C8 (counterexample): after an external stop request
(`scanner.status = "stopped"`), the batch loop still starts the next item's
work — the counter advances and its rows are emitted — and the scan ends
with status `complete`. -/
theorem scan_continues_after_stop :
    (stop_scan midScanState).status = "stopped" ∧
    (scanLoop demoEmit [[42]] (stop_scan midScanState)).scanned_items = 1 ∧
    (scanLoop demoEmit [[42]] (stop_scan midScanState)).trades = [demoRanked] ∧
    (scan_group demoEmit true [42] (stop_scan midScanState)).status = "complete" := by
  refine ⟨rfl, rfl, rfl, ?_⟩
  rw [scan_group]
  simp

/-- C8 (amended): the scan loop never reads the stop signal: regardless of
the status field — in particular after `stop_scan` — it processes every
batch, only appending to the already-emitted rows (none are rolled back),
and `scan_group` finally overwrites the status with `complete`. -/
theorem scan_loop_ignores_stop :
    (∀ (emit : ℤ → List RankedTrade) (batches : List (List ℤ)) (s : ScannerState),
      (scanLoop emit batches s).status = s.status ∧
      (scanLoop emit batches s).scanned_items
        = s.scanned_items + (batches.map List.length).sum ∧
      (scanLoop emit batches s).trades
        = s.trades ++ batches.flatMap (fun batch => batch.flatMap emit)) ∧
    (∀ (emit : ℤ → List RankedTrade) (batches : List (List ℤ)) (s : ScannerState),
      scanLoop emit batches (stop_scan s) = scanLoop emit batches { s with status := "stopped" }) ∧
    (∀ (emit : ℤ → List RankedTrade) (items : List ℤ) (s : ScannerState),
      (scan_group emit true items s).status = "complete") := by
  refine ⟨?_, ?_, ?_⟩
  · intro emit batches
    induction batches with
    | nil => intro s; simp [scanLoop]
    | cons batch rest ih =>
      intro s
      have hstep : scanLoop emit (batch :: rest) s
          = scanLoop emit rest
            { s with
              trades := s.trades ++ batch.flatMap emit
              scanned_items := s.scanned_items + batch.length
              progress := pyInt ((((s.scanned_items + batch.length : ℕ) : ℚ)
                                  / (s.total_items : ℚ)) * 100) } := rfl
      obtain ⟨ih1, ih2, ih3⟩ := ih _
      rw [hstep]
      refine ⟨ih1, ?_, ?_⟩
      · rw [ih2]; simp; omega
      · rw [ih3]; simp
  · intro emit batches s; rfl
  · intro emit items s
    rw [scan_group]
    simp

/-- C10: the security classification of `is_security_allowed` is total and
exclusive — highsec iff security is at least 0.5, lowsec iff it is in
[0.1, 0.5), nullsec iff below 0.1 — the function returns true exactly when
the value's tier is among the selected regions, and every value strictly
between the documented lowsec upper bound 0.45 and 0.5 is treated as
lowsec. -/
theorem security_tier_classification :
    (∀ s : ℚ, (securityTier s = "highsec" ↔ 1/2 ≤ s) ∧
              (securityTier s = "lowsec" ↔ 1/10 ≤ s ∧ s < 1/2) ∧
              (securityTier s = "nullsec" ↔ s < 1/10)) ∧
    (∀ (regions : List String) (s : ℚ),
      is_security_allowed regions s = true ↔ securityTier s ∈ regions) ∧
    (∀ s : ℚ, 45/100 < s → s < 1/2 → securityTier s = "lowsec") := by
  refine ⟨?_, ?_, ?_⟩
  · intro s
    unfold securityTier
    split
    · rename_i h1
      refine ⟨⟨fun _ => by exact h1, fun _ => rfl⟩, ?_, ?_⟩
      · constructor
        · intro h; exact absurd h (by decide)
        · intro ⟨_, h⟩; exact absurd h1 (not_le.mpr h)
      · constructor
        · intro h; exact absurd h (by decide)
        · intro h; exact absurd h1 (not_le.mpr (h.trans (by norm_num)))
    · split
      · rename_i h1 h2
        refine ⟨?_, ⟨fun _ => ⟨h2, not_le.mp h1⟩, fun _ => rfl⟩, ?_⟩
        · constructor
          · intro h; exact absurd h (by decide)
          · intro h; exact absurd h h1
        · constructor
          · intro h; exact absurd h (by decide)
          · intro h; exact absurd h2 (not_le.mpr h)
      · rename_i h1 h2
        refine ⟨?_, ?_, ⟨fun _ => not_le.mp h2, fun _ => rfl⟩⟩
        · constructor
          · intro h; exact absurd h (by decide)
          · intro h; exact absurd (le_trans (by norm_num) h) h2
        · constructor
          · intro h; exact absurd h (by decide)
          · intro ⟨h, _⟩; exact absurd h h2
  · intro regions s
    unfold is_security_allowed securityTier
    split
    · rename_i h
      obtain ⟨h1, h2⟩ := h
      rw [if_pos h1]
      simp [h2]
    · rename_i h
      split
      · rename_i h2
        obtain ⟨h21, h22, h23⟩ := h2
        rw [if_neg (not_le.mpr h22), if_pos h21]
        simp [h23]
      · rename_i h2
        split
        · rename_i h3
          obtain ⟨h31, h32⟩ := h3
          rw [if_neg (by exact not_le.mpr (h31.trans_le (by norm_num))),
              if_neg (not_le.mpr h31)]
          simp [h32]
        · rename_i h3
          push_neg at h h2 h3
          by_cases hhigh : 1/2 ≤ s
          · rw [if_pos hhigh]
            simp only [Bool.false_eq_true, false_iff]
            exact h hhigh
          · rw [if_neg hhigh]
            by_cases hlow : 1/10 ≤ s
            · rw [if_pos hlow]
              simp only [Bool.false_eq_true, false_iff]
              exact h2 hlow (not_le.mp hhigh)
            · rw [if_neg hlow]
              simp only [Bool.false_eq_true, false_iff]
              exact h3 (not_le.mp hlow)
  · intro s h1 h2
    unfold securityTier
    rw [if_neg (not_le.mpr h2), if_pos (le_of_lt (lt_of_le_of_lt (by norm_num) h1))]

theorem security_tier_classification_witness :
    securityTier (47/100) = "lowsec" ∧
    is_security_allowed ["lowsec"] (47/100) = true :=
  ⟨security_tier_classification.2.2 (47/100) (by norm_num) (by norm_num),
   (security_tier_classification.2.1 ["lowsec"] (47/100)).mpr
     (by rw [security_tier_classification.2.2 (47/100) (by norm_num) (by norm_num)]
         exact List.mem_singleton_self _)⟩

end EveTrading
